import Mathlib

/-!
Verification of the capability enumeration and last-capability discovery
logic of the `capability` package (`enum.go`), together with a spec-level
model of the in-memory capability-set accessors.

Go machine integers are embedded as `Nat`/`Int` with explicit `% 2^32`
where 32-bit wrap-around matters.  Fallible operations return
`Option`/`Except`.
-/

namespace Capability

/-! ### CapType selectors (`enum.go`, const block at lines 33-41)

`EFFECTIVE CapType = 1 << iota`, then `PERMITTED`, `INHERITABLE`,
`BOUNDING`; `CAPS = EFFECTIVE | PERMITTED | INHERITABLE`;
`BOUNDS = BOUNDING`.  `CapType` is a Go `uint`, embedded as `Nat`. -/

def EFFECTIVE : Nat := 1 <<< 0

def PERMITTED : Nat := 1 <<< 1

def INHERITABLE : Nat := 1 <<< 2

def BOUNDING : Nat := 1 <<< 3

def CAPS : Nat := EFFECTIVE ||| PERMITTED ||| INHERITABLE

def BOUNDS : Nat := BOUNDING

/-! ### The capability name table (`Cap.String`, `enum.go` lines 45-125)

A Go `switch` on the receiver; the cases are the `CAP_*` constants
`Cap(0)` .. `Cap(37)` declared at lines 128-344, and the default branch
returns `"unknown"`.  `Cap` is a Go `int`, embedded as `Int`; the switch
is embedded as the equivalent first-match conditional chain. -/

def capString (c : Int) : String :=
  if c = 0 then "chown"
  else if c = 1 then "dac_override"
  else if c = 2 then "dac_read_search"
  else if c = 3 then "fowner"
  else if c = 4 then "fsetid"
  else if c = 5 then "kill"
  else if c = 6 then "setgid"
  else if c = 7 then "setuid"
  else if c = 8 then "setpcap"
  else if c = 9 then "linux_immutable"
  else if c = 10 then "net_bind_service"
  else if c = 11 then "net_broadcast"
  else if c = 12 then "net_admin"
  else if c = 13 then "net_raw"
  else if c = 14 then "ipc_lock"
  else if c = 15 then "ipc_owner"
  else if c = 16 then "sys_module"
  else if c = 17 then "sys_rawio"
  else if c = 18 then "sys_chroot"
  else if c = 19 then "sys_ptrace"
  else if c = 20 then "sys_psacct"
  else if c = 21 then "sys_admin"
  else if c = 22 then "sys_boot"
  else if c = 23 then "sys_nice"
  else if c = 24 then "sys_resource"
  else if c = 25 then "sys_time"
  else if c = 26 then "sys_tty_config"
  else if c = 27 then "mknod"
  else if c = 28 then "lease"
  else if c = 29 then "audit_write"
  else if c = 30 then "audit_control"
  else if c = 31 then "setfcap"
  else if c = 32 then "mac_override"
  else if c = 33 then "mac_admin"
  else if c = 34 then "syslog"
  else if c = 35 then "wake_alarm"
  else if c = 36 then "block_suspend"
  else if c = 37 then "audit_read"
  else "unknown"

/-- The characters allowed in a canonical capability identifier:
lowercase ASCII letters and the underscore. -/
def isLowerIdentChar (c : Char) : Bool :=
  ( 'a' ≤ c && c ≤ 'z') || c = '_'

/-! ### Last-capability discovery (`enum.go` lines 346-374)

`var CAP_LAST_CAP = Cap(63)` and `capUpperMask = ^uint32(0)` are the
compiled-in defaults.  `getLastCap` reads
`/proc/sys/kernel/cap_last_cap`, trims surrounding whitespace
(`strings.TrimSpace`) and parses the result with `strconv.Atoi`;
`init` overwrites the two globals only when `getLastCap` succeeds.

The file read is embedded as an `Option (List Char)` argument
(`none` = read error).  `strconv.Atoi` accepts an optional single
`+`/`-` sign followed by one or more decimal digits, and fails on
anything else or on a value outside the signed-64-bit range (the
fast path, length < 19, cannot overflow; the slow path delegates to
`ParseInt(s, 10, 0)` whose range error is returned to the caller).
`strings.TrimSpace` trims the ASCII space set `"\t\n\v\f\r "` from
both ends (the claims only involve ASCII content, so the Unicode
space classes are not modelled). -/

def capLastCapDefault : Int := 63

def capUpperMaskDefault : Nat := 2 ^ 32 - 1

def isSpaceGo (c : Char) : Bool :=
  c = ' ' || c = Char.ofNat 9 || c = Char.ofNat 10 || c = Char.ofNat 11 ||
  c = Char.ofNat 12 || c = Char.ofNat 13

def trimSpace (s : List Char) : List Char :=
  ((s.dropWhile isSpaceGo).reverse.dropWhile isSpaceGo).reverse

def isDigit (c : Char) : Bool :=
  ( '0' ≤ c && c ≤ '9')

def digitsValAux : List Char → Nat → Option Nat
  | [], n => some n
  | c :: rest, n =>
      if isDigit c then digitsValAux rest (n * 10 + (c.toNat - 48)) else none

/-- The digit loop of `strconv.Atoi`: every character must be a decimal
digit and at least one digit must be present. -/
def digitsVal (ds : List Char) : Option Nat :=
  match ds with
  | [] => none
  | _ :: _ => digitsValAux ds 0

def goAtoi (s : List Char) : Option Int :=
  match s with
  | [] => none
  | c :: rest =>
      let ds := if c = '-' || c = '+' then rest else c :: rest
      match digitsVal ds with
      | none => none
      | some n =>
          let v : Int := if c = '-' then -(n : Int) else (n : Int)
          if -(2 ^ 63) ≤ v ∧ v ≤ 2 ^ 63 - 1 then some v else none

/-- `getLastCap` (`enum.go` lines 353-363): on a read error or a parse
error return the error, otherwise the parsed value. -/
def getLastCap (content : Option (List Char)) : Except Unit Int :=
  match content with
  | none => Except.error ()
  | some s =>
      match goAtoi (trimSpace s) with
      | none => Except.error ()
      | some v => Except.ok v

/-- `capUpperMask = (uint32(1) << (uint(lastCap) - 31)) - 1` when
`lastCap > 31`, else `0` (`init`, `enum.go` lines 368-372).  A Go shift
of a `uint32` by 32 or more yields `0`, and the `- 1` wraps modulo
`2^32`. -/
def capUpperMaskOf (lastCap : Int) : Nat :=
  if 31 < lastCap then
    let s : Nat := (lastCap - 31).toNat
    let shifted : Nat := if 32 ≤ s then 0 else (1 <<< s) % 2 ^ 32
    (shifted + (2 ^ 32 - 1)) % 2 ^ 32
  else 0

/-- The two package-level variables written by `init`. -/
structure CapGlobals where
  CAP_LAST_CAP : Int
  capUpperMask : Nat
  deriving DecidableEq, Repr

/-- `init` (`enum.go` lines 365-374): if `getLastCap` succeeds the two
globals are overwritten from the discovered value, otherwise they keep
their compiled-in defaults. -/
def initGlobals (discovery : Except Unit Int) : CapGlobals :=
  match discovery with
  | Except.ok lastCap => { CAP_LAST_CAP := lastCap, capUpperMask := capUpperMaskOf lastCap }
  | Except.error _ => { CAP_LAST_CAP := capLastCapDefault, capUpperMask := capUpperMaskDefault }

/-! ### In-memory capability state (spec model)

The bit-level accessors (`Set`/`Unset`/`Get` of the capability state)
live in the platform file of this repository, which is not part of the
sources at hand; they are modelled from the spec below. -/

/-- Modelled from the spec: a `CapabilityWord` is "two unsigned 32-bit
integers per set (low = bits 0-31, high = bits 32-63)" (§3).  The
implementing file (the platform-specific capability state code) is not
among the sources; each word is a `Nat` kept below `2^32`. -/
structure CapData where
  low : Nat
  high : Nat
  deriving DecidableEq, Repr

/-- Modelled from the spec: setting bit `i` of a capability word pair
(bits 0-31 in the low word, 32-63 in the high word); 32-bit arithmetic,
so the shifted bit is reduced modulo `2^32`. -/
def capDataSet (w : CapData) (i : Nat) : CapData :=
  if i < 32 then { w with low := w.low ||| ((1 <<< i) % 2 ^ 32) }
  else { w with high := w.high ||| ((1 <<< (i - 32)) % 2 ^ 32) }

/-- Modelled from the spec: clearing bit `i` of a capability word pair
(a Go `&^`, i.e. AND with the 32-bit complement of the bit). -/
def capDataUnset (w : CapData) (i : Nat) : CapData :=
  if i < 32 then { w with low := w.low &&& ((2 ^ 32 - 1) ^^^ ((1 <<< i) % 2 ^ 32)) }
  else { w with high := w.high &&& ((2 ^ 32 - 1) ^^^ ((1 <<< (i - 32)) % 2 ^ 32)) }

/-- Modelled from the spec: testing bit `i` of a capability word pair. -/
def capDataGet (w : CapData) (i : Nat) : Bool :=
  if i < 32 then w.low.testBit i else w.high.testBit (i - 32)

/-- Modelled from the spec: the four base sets owned by a
`CapabilityState` (§3); the ambient set is not stored here. -/
structure CapState where
  effective : CapData
  permitted : CapData
  inheritable : CapData
  bounding : CapData
  deriving DecidableEq, Repr

/-- Modelled from the spec: `Set` is a "pure in-memory bit set across
every base set named by the selector" (§4.4); a selector names a base
set when the corresponding `CapType` bit is set in it. -/
def stateSet (st : CapState) (which : Nat) (i : Nat) : CapState :=
  { effective := if which &&& EFFECTIVE ≠ 0 then capDataSet st.effective i else st.effective
    permitted := if which &&& PERMITTED ≠ 0 then capDataSet st.permitted i else st.permitted
    inheritable := if which &&& INHERITABLE ≠ 0 then capDataSet st.inheritable i else st.inheritable
    bounding := if which &&& BOUNDING ≠ 0 then capDataSet st.bounding i else st.bounding }

/-- Modelled from the spec: `Unset`, the clearing counterpart of
`stateSet` (§4.4). -/
def stateUnset (st : CapState) (which : Nat) (i : Nat) : CapState :=
  { effective := if which &&& EFFECTIVE ≠ 0 then capDataUnset st.effective i else st.effective
    permitted := if which &&& PERMITTED ≠ 0 then capDataUnset st.permitted i else st.permitted
    inheritable := if which &&& INHERITABLE ≠ 0 then capDataUnset st.inheritable i else st.inheritable
    bounding := if which &&& BOUNDING ≠ 0 then capDataUnset st.bounding i else st.bounding }

/-- Modelled from the spec: `Get` is a "pure in-memory bit test"
resolved to the single base set the selector denotes (§4.4); compound
selectors are not meaningful for `Get`. -/
def stateGet (st : CapState) (which : Nat) (i : Nat) : Bool :=
  if which = EFFECTIVE then capDataGet st.effective i
  else if which = PERMITTED then capDataGet st.permitted i
  else if which = INHERITABLE then capDataGet st.inheritable i
  else if which = BOUNDING then capDataGet st.bounding i
  else false

/-! ### Helper lemmas -/

/-- ANDing a value below `2^32` with the all-ones 32-bit mask changes
nothing. -/
lemma land_mask32_of_lt (w : Nat) (hw : w < 2 ^ 32) : w &&& (2 ^ 32 - 1) = w := by
  apply Nat.eq_of_testBit_eq
  intro i
  rw [Nat.testBit_land, Nat.testBit_two_pow_sub_one]
  by_cases h : i < 32
  · simp [h]
  · have : w < 2 ^ i := lt_of_lt_of_le hw (Nat.pow_le_pow_right (by norm_num) (by omega))
    simp [h, Nat.testBit_lt_two_pow this]

/-- Setting then clearing bit `j < 32` of a 32-bit word leaves that bit
clear, whatever was stored before. -/
lemma word_bit_clear (x : Nat) (j : Nat) (hj : j < 32) :
    ((x ||| 2 ^ j) &&& ((2 ^ 32 - 1) ^^^ 2 ^ j)).testBit j = false := by
  rw [Nat.testBit_land, Nat.testBit_xor, Nat.testBit_two_pow_sub_one,
    Nat.testBit_two_pow_self]
  simp [hj]

lemma shiftLeft_one_mod32 (j : Nat) (hj : j < 32) : (1 <<< j) % 2 ^ 32 = 2 ^ j := by
  rw [Nat.shiftLeft_eq, one_mul]
  exact Nat.mod_eq_of_lt (Nat.pow_lt_pow_right (by norm_num) hj)

lemma capData_set_unset_get (w : CapData) (i : Nat) (hi : i < 64) :
    capDataGet (capDataUnset (capDataSet w i) i) i = false := by
  by_cases h : i < 32
  · simp only [capDataSet, capDataUnset, capDataGet, if_pos h,
      shiftLeft_one_mod32 i h]
    exact word_bit_clear w.low i h
  · have h32 : i - 32 < 32 := by omega
    simp only [capDataSet, capDataUnset, capDataGet, if_neg h,
      shiftLeft_one_mod32 (i - 32) h32]
    exact word_bit_clear w.high (i - 32) h32

lemma digitsValAux_all (ds : List Char) : ∀ (a n : Nat),
    digitsValAux ds a = some n → ds.all isDigit = true := by
  induction ds with
  | nil => intro a n _; rfl
  | cons c rest ih =>
      intro a n h
      rw [digitsValAux] at h
      by_cases hc : isDigit c = true
      · rw [if_pos hc] at h
        simp only [List.all_cons, hc, Bool.true_and]
        exact ih _ _ h
      · rw [if_neg hc] at h
        exact absurd h (by simp)

lemma digitsVal_shape (ds : List Char) (n : Nat) (h : digitsVal ds = some n) :
    ds ≠ [] ∧ ds.all isDigit = true := by
  match ds with
  | [] => exact absurd h (by simp [digitsVal])
  | c :: rest =>
      refine ⟨by simp, ?_⟩
      exact digitsValAux_all _ _ _ h

lemma isDigit_not_space (c : Char) (hd : isDigit c = true) : isSpaceGo c = false := by
  by_cases hs : isSpaceGo c = true
  · exfalso
    simp only [isSpaceGo, Bool.or_eq_true, decide_eq_true_eq] at hs
    simp only [isDigit, Bool.and_eq_true, decide_eq_true_eq] at hd
    obtain ⟨h1, h2⟩ := hd
    rcases hs with ((((rfl | rfl) | rfl) | rfl) | rfl) | rfl <;> revert h1 h2 <;> decide
  · exact Bool.eq_false_iff.mpr hs

/-- The decomposition behind an accepted `Atoi` input: an optional sign
character followed by a nonempty run of decimal digits. -/
lemma goAtoi_shape (s : List Char) (v : Int) (h : goAtoi s = some v) :
    ∃ pre ds, (pre = [] ∨ pre = [Char.ofNat 45] ∨ pre = [Char.ofNat 43]) ∧
      ds ≠ [] ∧ ds.all isDigit = true ∧ s = pre ++ ds := by
  match s with
  | [] => exact absurd h (by simp [goAtoi])
  | c :: rest =>
      simp only [goAtoi] at h
      by_cases hsign : (c = '-' || c = '+') = true
      · rw [if_pos hsign] at h
        match hd : digitsVal rest with
        | none => rw [hd] at h; simp at h
        | some n =>
            obtain ⟨hne, hall⟩ := digitsVal_shape _ _ hd
            simp only [Bool.or_eq_true, decide_eq_true_eq] at hsign
            rcases hsign with rfl | rfl
            · exact ⟨[Char.ofNat 45], rest, Or.inr (Or.inl rfl), hne, hall, rfl⟩
            · exact ⟨[Char.ofNat 43], rest, Or.inr (Or.inr rfl), hne, hall, rfl⟩
      · rw [if_neg hsign] at h
        match hd : digitsVal (c :: rest) with
        | none => rw [hd] at h; simp at h
        | some n =>
            obtain ⟨hne, hall⟩ := digitsVal_shape _ _ hd
            exact ⟨[], c :: rest, Or.inl rfl, hne, hall, rfl⟩

lemma dropWhile_cons_of_false {p : Char → Bool} {x : Char} {l : List Char}
    (h : p x = false) : List.dropWhile p (x :: l) = x :: l := by
  rw [List.dropWhile_cons, if_neg (by simp [h])]

/-- Trimming an accepted numeric text (optional sign, then digits) with
a trailing newline recovers the text itself. -/
lemma trimSpace_sign_digits_newline (pre ds : List Char)
    (hpre : pre = [] ∨ pre = [Char.ofNat 45] ∨ pre = [Char.ofNat 43])
    (hne : ds ≠ []) (hall : ds.all isDigit = true) :
    trimSpace ((pre ++ ds) ++ [Char.ofNat 10]) = pre ++ ds := by
  obtain ⟨t, a, rfl⟩ : ∃ t a, ds = t ++ [a] := by
    rcases List.eq_nil_or_concat ds with h | ⟨t, a, h⟩
    · exact absurd h hne
    · exact ⟨t, a, by rw [h, List.concat_eq_append]⟩
  have ha : isDigit a = true := by
    have := List.all_eq_true.mp hall a (by simp)
    simpa using this
  have haword : isSpaceGo a = false := isDigit_not_space a ha
  have hfront : List.dropWhile isSpaceGo ((pre ++ (t ++ [a])) ++ [Char.ofNat 10]) =
      (pre ++ (t ++ [a])) ++ [Char.ofNat 10] := by
    rcases hpre with rfl | rfl | rfl
    · simp only [List.nil_append]
      match t with
      | [] =>
          simp only [List.nil_append, List.singleton_append]
          exact dropWhile_cons_of_false haword
      | d :: t2 =>
          have hdd : isDigit d = true := by
            have := List.all_eq_true.mp hall d (by simp)
            simpa using this
          simp only [List.cons_append]
          exact dropWhile_cons_of_false (isDigit_not_space d hdd)
    · simp only [List.singleton_append, List.cons_append]
      exact dropWhile_cons_of_false (by decide)
    · simp only [List.singleton_append, List.cons_append]
      exact dropWhile_cons_of_false (by decide)
  have hback : List.dropWhile isSpaceGo ((pre ++ (t ++ [a])) ++ [Char.ofNat 10]).reverse =
      (pre ++ (t ++ [a])).reverse := by
    rw [List.reverse_concat]
    rw [List.dropWhile_cons, if_pos (by decide)]
    have : (pre ++ (t ++ [a])).reverse = a :: (t.reverse ++ pre.reverse) := by
      rw [List.reverse_append, List.reverse_concat]
      rfl
    rw [this]
    rw [dropWhile_cons_of_false haword]
  unfold trimSpace
  rw [hfront, hback, List.reverse_reverse]

/-! ### Claim theorems -/

/-- C1: for every successfully discovered last-capability id `L`, `init`
derives the upper-word valid mask as `(1 <<< (L - 31)) - 1` (a 32-bit
quantity, hence reduced modulo `2^32`) when `L > 31`, and as `0` when
`L <= 31`. -/
theorem upperMask_formula (L : Int) :
    (initGlobals (Except.ok L)).capUpperMask =
      if 31 < L then ((1 <<< (L - 31).toNat) - 1) % 2 ^ 32 else 0 := by
  show capUpperMaskOf L = _
  unfold capUpperMaskOf
  by_cases hL : 31 < L
  · rw [if_pos hL, if_pos hL]
    dsimp only
    set s : Nat := (L - 31).toNat with hs
    have hs1 : 1 ≤ s := by omega
    rw [Nat.shiftLeft_eq, one_mul]
    have h32 : (2 : Nat) ^ 32 = 4294967296 := by norm_num
    by_cases hbig : 32 ≤ s
    · rw [if_pos hbig]
      have hsplit : (2 : Nat) ^ s = 2 ^ 32 * 2 ^ (s - 32) := by
        rw [← pow_add]
        congr 1
        omega
      have hpos : 1 ≤ (2 : Nat) ^ (s - 32) := Nat.one_le_two_pow
      have hrw : (2 : Nat) ^ s - 1 = 2 ^ 32 * (2 ^ (s - 32) - 1) + (2 ^ 32 - 1) := by
        rw [hsplit]
        rw [h32] at *
        omega
      rw [hrw, Nat.mul_add_mod]
      omega
    · rw [if_neg hbig]
      have hlt : (2 : Nat) ^ s < 2 ^ 32 := Nat.pow_lt_pow_right (by norm_num) (by omega)
      have hone : 1 ≤ (2 : Nat) ^ s := Nat.one_le_two_pow
      rw [Nat.mod_eq_of_lt hlt]
      have : (2 : Nat) ^ s + (2 ^ 32 - 1) = (2 ^ s - 1) + 2 ^ 32 := by omega
      rw [this, Nat.add_mod_right, Nat.mod_eq_of_lt (by omega)]
  · rw [if_neg hL, if_neg hL]

/-- C2 counterexample: after a failed discovery the two globals are
bit-for-bit identical to what a successful discovery of 63 produces, so
the substitution of the compiled-in defaults is not observable (no flag
or other record distinguishes the two outcomes). -/
theorem discovery_failure_indistinguishable :
    initGlobals (Except.error ()) = initGlobals (Except.ok 63) := by decide

/-- C2 amended: when last-capability discovery fails, `init` keeps the
compiled-in defaults without raising an error to the caller, but the
substitution is not observable: no flag records it, and there is a
successful discovery outcome producing exactly the same globals. -/
theorem discovery_failure_silent_defaults :
    initGlobals (Except.error ()) =
        { CAP_LAST_CAP := capLastCapDefault, capUpperMask := capUpperMaskDefault } ∧
      ∃ L : Int, initGlobals (Except.ok L) = initGlobals (Except.error ()) :=
  ⟨rfl, ⟨63, by decide⟩⟩

/-- C3 counterexample: the compiled-in fallback for the last-capability
id is not lower than 63. -/
theorem fallback_not_below_63 : ¬ capLastCapDefault < 63 := by decide

/-- C3 amended: the compiled-in fallback value for the last-capability
id is exactly 63, i.e. it assumes all 64 capability bits are valid (and
the matching default upper-word mask is all-ones). -/
theorem fallback_is_63 :
    capLastCapDefault = 63 ∧ capUpperMaskDefault = 2 ^ 32 - 1 := by decide

/-- C6: the four base `CapType` values are pairwise distinct, `CAPS`
contains exactly the Effective, Permitted and Inheritable selectors (and
not Bounding), and `BOUNDS` contains exactly Bounding. -/
theorem capType_union_structure :
    (EFFECTIVE ≠ PERMITTED ∧ EFFECTIVE ≠ INHERITABLE ∧ EFFECTIVE ≠ BOUNDING ∧
        PERMITTED ≠ INHERITABLE ∧ PERMITTED ≠ BOUNDING ∧ INHERITABLE ≠ BOUNDING) ∧
      (CAPS &&& EFFECTIVE ≠ 0 ∧ CAPS &&& PERMITTED ≠ 0 ∧
        CAPS &&& INHERITABLE ≠ 0 ∧ CAPS &&& BOUNDING = 0) ∧
      (BOUNDS &&& BOUNDING ≠ 0 ∧ BOUNDS &&& EFFECTIVE = 0 ∧
        BOUNDS &&& PERMITTED = 0 ∧ BOUNDS &&& INHERITABLE = 0) ∧
      CAPS = EFFECTIVE ||| PERMITTED ||| INHERITABLE ∧ BOUNDS = BOUNDING := by
  decide

/-- C7: on the in-memory capability state, for every base selector `s`
and capability id `i`, `Set(s, i)` followed by `Unset(s, i)` leaves
`Get(s, i)` false. -/
theorem set_unset_get_false (st : CapState) (s i : Nat)
    (hs : s = EFFECTIVE ∨ s = PERMITTED ∨ s = INHERITABLE ∨ s = BOUNDING)
    (hi : i < 64) :
    stateGet (stateUnset (stateSet st s i) s i) s i = false := by
  rcases hs with rfl | rfl | rfl | rfl <;>
    simp only [stateGet, stateSet, stateUnset, EFFECTIVE, PERMITTED, INHERITABLE,
      BOUNDING] <;>
    norm_num <;>
    exact capData_set_unset_get _ _ hi

/-- C7 witness: a concrete run of the round trip on the empty state,
Effective selector, bit 5. -/
theorem set_unset_get_false_witness :
    stateGet (stateUnset (stateSet ⟨⟨0, 0⟩, ⟨0, 0⟩, ⟨0, 0⟩, ⟨0, 0⟩⟩ EFFECTIVE 5)
      EFFECTIVE 5) EFFECTIVE 5 = false :=
  set_unset_get_false _ EFFECTIVE 5 (Or.inl rfl) (by omega)

/-- C10: when discovery fails, `init` leaves both globals at their
compiled-in defaults — `CAP_LAST_CAP` stays 63 and the upper-word mask
stays all-ones — and ANDing any 32-bit word with that mask scrubs
nothing. -/
theorem failure_leaves_defaults :
    ((initGlobals (Except.error ())).CAP_LAST_CAP = 63 ∧
        (initGlobals (Except.error ())).capUpperMask = 2 ^ 32 - 1) ∧
      ∀ w : Nat, w < 2 ^ 32 →
        w &&& (initGlobals (Except.error ())).capUpperMask = w :=
  ⟨⟨rfl, rfl⟩, fun w hw => land_mask32_of_lt w hw⟩

/-- C10 witness: the scrub-nothing clause at the concrete word
`0xDEADBEEF`. -/
theorem failure_leaves_defaults_witness :
    3735928559 &&& (initGlobals (Except.error ())).capUpperMask = 3735928559 :=
  failure_leaves_defaults.2 3735928559 (by norm_num)

/-- Any value produced by an accepted `Atoi` input lies in the signed
64-bit range. -/
lemma range_guard (x v : Int)
    (h : (if -(2 ^ 63) ≤ x ∧ x ≤ 2 ^ 63 - 1 then some x else none) = some v) :
    -(2 ^ 63) ≤ v ∧ v ≤ 2 ^ 63 - 1 := by
  split at h
  · rename_i hc
    obtain rfl := Option.some.inj h
    exact hc
  · simp at h

lemma goAtoi_bounds (l : List Char) (v : Int) (h : goAtoi l = some v) :
    -(2 ^ 63) ≤ v ∧ v ≤ 2 ^ 63 - 1 := by
  match l with
  | [] => simp [goAtoi] at h
  | c :: rest =>
      simp only [goAtoi] at h
      split at h
      · simp at h
      · exact range_guard _ _ h

/-- C5 counterexample: the reader accepts the text `"-1"` and returns
the negative value `-1` without error, so acceptance does not imply
non-negativity. -/
theorem getLastCap_accepts_negative :
    getLastCap (some [ '-', '1']) = Except.ok (-1) ∧ (-1 : Int) < 0 :=
  ⟨by rfl, by decide⟩

/-- C5 amended: for every textual input the last-capability reader
accepts, the parsed value is an integer in the signed 64-bit range
`[-2^63, 2^63 - 1]`; it is not necessarily non-negative (a leading minus
sign is accepted). -/
theorem getLastCap_range (content : Option (List Char)) (v : Int)
    (h : getLastCap content = Except.ok v) :
    -(2 ^ 63) ≤ v ∧ v ≤ 2 ^ 63 - 1 := by
  match content with
  | none => simp [getLastCap] at h
  | some s =>
      simp only [getLastCap] at h
      split at h
      · simp at h
      · rename_i w hw
        obtain rfl : w = v := by simpa using h
        exact goAtoi_bounds _ _ hw

/-- C5 amended witness: the accepted text `"63"` parses to 63, which the
theorem then places inside the 64-bit range. -/
theorem getLastCap_range_witness :
    -(2 ^ 63) ≤ (63 : Int) ∧ (63 : Int) ≤ 2 ^ 63 - 1 :=
  getLastCap_range (some [ '6', '3']) 63 (by rfl)

/-- C9: the reader strips surrounding whitespace before parsing: any
text `Atoi` accepts still parses to the same value when a trailing
newline (the usual proc-file format) is appended. -/
theorem getLastCap_trailing_newline (s : List Char) (v : Int)
    (h : goAtoi s = some v) :
    getLastCap (some (s ++ [Char.ofNat 10])) = Except.ok v := by
  obtain ⟨pre, ds, hpre, hne, hall, rfl⟩ := goAtoi_shape s v h
  have htrim := trimSpace_sign_digits_newline pre ds hpre hne hall
  simp only [getLastCap, htrim, h]

/-- C9 witness: `"63"` followed by a newline parses successfully to
63. -/
theorem getLastCap_trailing_newline_witness :
    goAtoi [ '6', '3'] = some 63 ∧
      getLastCap (some ([ '6', '3'] ++ [Char.ofNat 10])) = Except.ok 63 :=
  ⟨by decide, getLastCap_trailing_newline [ '6', '3'] 63 (by decide)⟩

/-- C4: the name lookup is total and never fails: it returns `"unknown"`
exactly for the ids outside the known table (which covers ids 0..37),
and every string it returns — the canonical identifiers as well as
`"unknown"` itself — is made of lowercase letters and underscores. -/
theorem capString_total (i : Int) :
    (capString i = "unknown" ↔ i < 0 ∨ 37 < i) ∧
      (capString i).data.all isLowerIdentChar = true := by
  by_cases h : 0 ≤ i ∧ i ≤ 37
  · obtain ⟨h1, h2⟩ := h
    interval_cases i <;> exact (by decide)
  · have hcap : capString i = "unknown" := by
      unfold capString
      iterate 38 rw [if_neg (by omega)]
    rw [hcap]
    exact ⟨⟨fun _ => by omega, fun _ => rfl⟩, by decide⟩

/-- C8: every capability id strictly greater than 37 (`CAP_AUDIT_READ`)
has no name in the table — the lookup returns `"unknown"` — even though
such an id up to 63 is within the discovered last-capability bound when
discovery reports 63. -/
theorem capString_unknown_above_audit_read (i : Int) (h : 37 < i) :
    capString i = "unknown" ∧
      (i ≤ 63 → i ≤ (initGlobals (Except.ok 63)).CAP_LAST_CAP) := by
  constructor
  · unfold capString
    iterate 38 rw [if_neg (by omega)]
  · intro h63
    show i ≤ 63
    exact h63

/-- C8 witness: id 40 is unnamed yet within the bound discovered from a
kernel reporting 63. -/
theorem capString_unknown_above_audit_read_witness :
    capString 40 = "unknown" ∧
      ((40 : Int) ≤ 63 → (40 : Int) ≤ (initGlobals (Except.ok 63)).CAP_LAST_CAP) :=
  capString_unknown_above_audit_read 40 (by omega)

end Capability
